import Mathlib

/-!
Verification of the PlatformIO package-manifest validation engine
(`src/platformio/package/manifest/schema.py`).

The source declares marshmallow schemas (`ManifestSchema`, `AuthorSchema`,
`RepositorySchema`, `ExportSchema`, `ExampleSchema`), two custom error hooks
(`StrictSchema.handle_error`, `ManifestSchema.handle_error`), a list field
(`StrictListField`), two `@validates` hooks (`validate_version`,
`validate_license`) and a TTL-memoized registry fetch (`load_spdx_licenses`).

This file shallowly embeds the marshmallow-3 code path of that module
(the branch selected by `marshmallow_version >= (3,)` throughout the source):
documents are finite key/value structures over a JSON-like value type, a
schema load walks the declared fields in declaration order, accumulates a
violations map and a partially valid document, and the error hooks decide
what is raised.  `semantic_version.Version.coerce` and the structural
email/URL validators of marshmallow are modelled as executable functions.
-/

set_option maxRecDepth 4000

namespace PioManifest

/-- JSON-like values appearing in a manifest document: strings, booleans,
integers, arrays and objects (objects as association lists with string keys,
mirroring Python dicts; JSON `null` does not occur in the modelled inputs). -/
inductive JVal where
  | str : String → JVal
  | boolean : Bool → JVal
  | num : Int → JVal
  | list : List JVal → JVal
  | obj : List (String × JVal) → JVal

/-- Structured validation messages, mirroring marshmallow error payloads:
a plain list of reasons for one field, an index-keyed map for list items and
`many=True` nested schemas, and a field-keyed map for nested schemas. -/
inductive Msgs where
  | strs : List String → Msgs
  | byIndex : List (Nat × Msgs) → Msgs
  | byField : List (String × Msgs) → Msgs

/-- First-match association-list lookup, modelling Python `dict` access. -/
def alistLookup {α : Type} : List (String × α) → String → Option α
  | [], _ => none
  | (k', v) :: rest, k => if k' = k then some v else alistLookup rest k

/-- Removes the entry with the given key, modelling Python `dict.pop`. -/
def removeKey {α : Type} (k : String) (l : List (String × α)) : List (String × α) :=
  l.filter (fun p => p.1 != k)

/-! ### Field validators (`marshmallow.validate` instances used by the source) -/

/-- `validate.Length(min, max)` with both bounds set. -/
def lengthValidator (mn mx : Nat) (s : String) : Option String :=
  if mn ≤ s.length ∧ s.length ≤ mx then none
  else some s!"Length must be between {mn} and {mx}."

/-- `validate.OneOf(choices, error=err)`. -/
def oneOfValidator (choices : List String) (err : String) (s : String) : Option String :=
  if choices.contains s then none else some err

/-- `validate.Regexp(pattern, error=err)` for the anchored character-class
patterns of the source; `pat` decides the full match. -/
def regexpValidator (pat : String → Bool) (err : String) (s : String) : Option String :=
  if pat s then none else some err

/-- Full match of `^[a-z\d\-\+\. ]+$` (the `keywords` item pattern). -/
def keywordPat (s : String) : Bool :=
  !s.toList.isEmpty &&
    s.toList.all (fun c => c.isLower || c.isDigit || c == '-' || c == '+' || c == '.' || c == ' ')

/-- Full match of `^([a-z\d\-_]+|\*)$` (the `platforms`/`frameworks` item pattern). -/
def platformPat (s : String) : Bool :=
  (!s.toList.isEmpty &&
    s.toList.all (fun c => c.isLower || c.isDigit || c == '-' || c == '_')) || s == "*"

/-- Full match of `^[a-z\d\-_]+$` (the `system` item pattern). -/
def systemPat (s : String) : Bool :=
  !s.toList.isEmpty &&
    s.toList.all (fun c => c.isLower || c.isDigit || c == '-' || c == '_')

/-- Full match of `^[a-zA-Z\d\-\_/]+$` (the example `name` pattern). -/
def exampleNamePat (s : String) : Bool :=
  !s.toList.isEmpty &&
    s.toList.all (fun c => c.isAlpha || c.isDigit || c == '-' || c == '_' || c == '/')

/-- Splits a character list on a separator character, with Python
`str.split(sep)` semantics (an empty input yields one empty part). -/
def splitOnChar (sep : Char) : List Char → List (List Char)
  | [] => [[]]
  | c :: rest =>
      if c == sep then [] :: splitOnChar sep rest
      else
        match splitOnChar sep rest with
        | [] => [[c]]
        | h :: t => (c :: h) :: t

/-- Structural model of marshmallow's email validator: a `local@domain`
shape with a nonempty local part and a dotted nonempty domain. -/
def emailOk (s : String) : Bool :=
  match splitOnChar '@' s.toList with
  | [lo, dom] => !lo.isEmpty && !dom.isEmpty && dom.contains '.'
  | _ => false

/-- Structural model of marshmallow's URL validator: a known scheme followed
by `://` and a nonempty remainder. -/
def urlOk (s : String) : Bool :=
  ["http://", "https://", "ftp://", "ftps://"].any
    (fun p => p.toList.isPrefixOf s.toList && p.length < s.length)

/-- `validate.Email` / the `fields.Email` built-in validator. -/
def emailValidator (s : String) : Option String :=
  if emailOk s then none else some "Not a valid email address."

/-- `validate.URL` / the `fields.Url` built-in validator. -/
def urlValidator (s : String) : Option String :=
  if urlOk s then none else some "Not a valid URL."

/-- Runs all validators of a field and collects every produced reason,
mirroring marshmallow `Field._validate` which accumulates the messages of
all failing validators. -/
def runValidators (vs : List (String → Option String)) (s : String) : List String :=
  vs.filterMap (fun v => v s)

/-! ### Field deserializers -/

/-- `fields.Str(validate=vs)`: the value must be a string, then every
validator is applied; a valid string deserializes to itself. -/
def strDeser (vs : List (String → Option String)) : JVal → Except (List String) JVal
  | .str s =>
      match runValidators vs s with
      | [] => .ok (.str s)
      | es => .error es
  | _ => .error ["Not a valid string."]

/-- `fields.Email(validate=vs)`: a string field whose first validator is the
email validator (marshmallow inserts it in front of the user validators). -/
def emailFieldDeser (vs : List (String → Option String)) : JVal → Except (List String) JVal :=
  strDeser (emailValidator :: vs)

/-- `fields.Url(validate=vs)`: a string field whose first validator is the
URL validator. -/
def urlFieldDeser (vs : List (String → Option String)) : JVal → Except (List String) JVal :=
  strDeser (urlValidator :: vs)

/-- `fields.Bool()`: accepts booleans and marshmallow's truthy/falsy
string and integer encodings. -/
def boolDeser : JVal → Except (List String) JVal
  | .boolean b => .ok (.boolean b)
  | .str s =>
      if ["t", "T", "true", "True", "TRUE", "on", "On", "ON", "y", "Y", "yes", "Yes", "YES", "1"].contains s then
        .ok (.boolean true)
      else if ["f", "F", "false", "False", "FALSE", "off", "Off", "OFF", "n", "N", "no", "No", "NO", "0"].contains s then
        .ok (.boolean false)
      else .error ["Not a valid boolean."]
  | .num n => if n = 1 then .ok (.boolean true) else if n = 0 then .ok (.boolean false)
      else .error ["Not a valid boolean."]
  | _ => .error ["Not a valid boolean."]

/-! ### Schema load outcome -/

/-- Result of one marshmallow schema `load` pass: the partially valid
document (`valid_data`) and the accumulated violations map (`messages`). -/
structure LoadOutcome where
  validData : List (String × JVal)
  messages : List (String × Msgs)

/-- Per-field processing outcome: the value stored into `valid_data` (if any)
and the messages stored into the violations map (if any). -/
abbrev FieldOut := Option JVal × Option Msgs

/-- Processes one scalar field: a missing required field yields
`Missing data for required field.`; a present value is deserialized. -/
def scalarField (required : Bool) (deser : JVal → Except (List String) JVal)
    (v : Option JVal) : FieldOut :=
  match v with
  | none => (none, if required then some (.strs ["Missing data for required field."]) else none)
  | some v =>
      match deser v with
      | .ok w => (some w, none)
      | .error es => (none, some (.strs es))

/-- Deserializes the items of a list value, as `fields.List._deserialize`
does: each item independently, surviving items in order in the first
component, per-index errors in the second. -/
def listItemsAux (inner : JVal → Except (List String) JVal) :
    Nat → List JVal → List JVal × List (Nat × Msgs)
  | _, [] => ([], [])
  | idx, v :: rest =>
      let p := listItemsAux inner (idx + 1) rest
      match inner v with
      | .ok w => (w :: p.1, p.2)
      | .error es => (p.1, (idx, .strs es) :: p.2)

/-- Assembles the outcome of deserializing the iterated items of a
`StrictListField`.  On item errors the parent schema stores the per-index
messages and keeps the surviving items as the field's valid data
(`error.valid_data or missing` in marshmallow: an empty survivor list is
dropped entirely). -/
def listFieldItems (inner : JVal → Except (List String) JVal)
    (items : List JVal) : FieldOut :=
  let p := listItemsAux inner 0 items
  if p.2.isEmpty then (some (.list p.1), none)
  else (if p.1.isEmpty then none else some (.list p.1), some (.byIndex p.2))

/-- Processes a `StrictListField(inner)` field.  `fields.List` accepts any
iterable that is not a string (`is_iterable_but_not_string`): a list input is
iterated itemwise and a dict input by its keys (Python iteration over a
mapping yields the keys), while strings, booleans and numbers are rejected
with `Not a valid list.`. -/
def listField (required : Bool) (inner : JVal → Except (List String) JVal)
    (v : Option JVal) : FieldOut :=
  match v with
  | none => (none, if required then some (.strs ["Missing data for required field."]) else none)
  | some (.list items) => listFieldItems inner items
  | some (.obj kvs) => listFieldItems inner (kvs.map (fun q => JVal.str q.1))
  | some _ => (none, some (.strs ["Not a valid list."]))

/-- Keeps the items whose index is not recorded in the error map, modelling
`[item for idx, item in enumerate(data) if idx not in error.messages]` in
`StrictSchema.handle_error`. -/
def filterByIdx (errIdxs : List Nat) : Nat → List JVal → List JVal
  | _, [] => []
  | i, v :: rest =>
      if errIdxs.contains i then filterByIdx errIdxs (i + 1) rest
      else v :: filterByIdx errIdxs (i + 1) rest

/-- Folds one nested-schema load outcome into the items/errors accumulated
for the later indices (the loop body of a `many=True` load). -/
def manyItemStep (idx : Nat) (o : LoadOutcome) (p : List JVal × List (Nat × Msgs)) :
    List JVal × List (Nat × Msgs) :=
  if o.messages.isEmpty then (JVal.obj o.validData :: p.1, p.2)
  else (p.1, (idx, .byField o.messages) :: p.2)

/-- Loads every item of a `many=True` nested schema: the first component is
the list of fully deserialized items (meaningful when no item failed), the
second the per-index nested errors. -/
def manyItems (subLoad : List (String × JVal) → LoadOutcome) :
    Nat → List JVal → List JVal × List (Nat × Msgs)
  | _, [] => ([], [])
  | idx, v :: rest =>
      let p := manyItems subLoad (idx + 1) rest
      match v with
      | .obj kvs => manyItemStep idx (subLoad kvs) p
      | _ => (p.1, (idx, .byField [("_schema", .strs ["Invalid input type."])]) :: p.2)

/-- Processes a `fields.Nested(schema)` field.  `strictHE` selects the
overridden `StrictSchema.handle_error` (which reports `valid_data=None`, so
the whole field is dropped on any nested failure); a plain `Schema` keeps the
partially valid nested document unless it is empty. -/
def nestedField (strictHE : Bool) (subLoad : List (String × JVal) → LoadOutcome)
    (v : Option JVal) : FieldOut :=
  match v with
  | none => (none, none)
  | some (.obj kvs) =>
      let o := subLoad kvs
      if o.messages.isEmpty then (some (.obj o.validData), none)
      else
        (if strictHE then none
         else if o.validData.isEmpty then none else some (.obj o.validData),
         some (.byField o.messages))
  | some _ => (none, some (.byField [("_schema", .strs ["Invalid input type."])]))

/-- Processes a `fields.Nested(schema, many=True)` field over a
`StrictSchema`.  A list input is loaded itemwise; on nested failures
`StrictSchema.handle_error` keeps the raw input items whose index carries no
error.  A dict or string input is not a collection (`is_collection`), so the
load records an `Invalid input type.` error keyed `_schema` — and
`handle_error` then enumerates the raw value (a dict by its keys, a string by
its characters); since no integer index occurs in the `_schema`-keyed error
map, every enumerated element survives into `valid_data`.  In every case an
empty survivor list is dropped entirely by `error.valid_data or missing` at
the outer level. -/
def nestedManyField (subLoad : List (String × JVal) → LoadOutcome)
    (v : Option JVal) : FieldOut :=
  match v with
  | none => (none, none)
  | some (.list items) =>
      let p := manyItems subLoad 0 items
      if p.2.isEmpty then (some (.list p.1), none)
      else
        let survivors := filterByIdx (p.2.map Prod.fst) 0 items
        (if survivors.isEmpty then none else some (.list survivors), some (.byIndex p.2))
  | some (.obj kvs) =>
      let survivors := kvs.map (fun q => JVal.str q.1)
      (if survivors.isEmpty then none else some (.list survivors),
       some (.byField [("_schema", .strs ["Invalid input type."])]))
  | some (.str s) =>
      let survivors := s.toList.map (fun c => JVal.str (String.singleton c))
      (if survivors.isEmpty then none else some (.list survivors),
       some (.byField [("_schema", .strs ["Invalid input type."])]))
  | some _ => (none, some (.byField [("_schema", .strs ["Invalid input type."])]))

/-- The association-list entry contributed by one optional per-field value. -/
def entryList {α : Type} (k : String) : Option α → List (String × α)
  | none => []
  | some v => [(k, v)]

/-- Assembles the per-field outcomes, in field-declaration order, into the
schema-level `valid_data` document and violations map. -/
def collectOuts : List (String × FieldOut) → LoadOutcome
  | [] => ⟨[], []⟩
  | (k, fo) :: rest =>
      let r := collectOuts rest
      ⟨entryList k fo.1 ++ r.validData, entryList k fo.2 ++ r.messages⟩

/-- Errors for the input keys that are not declared schema fields, as
marshmallow's `unknown=RAISE` default produces for the sub-schemas (the
manifest schema itself uses `unknown=EXCLUDE` and skips this step). -/
def unknownMsgs (declared : List String) (doc : List (String × JVal)) :
    List (String × Msgs) :=
  (doc.filter (fun p => !declared.contains p.1)).map
    (fun p => (p.1, Msgs.strs ["Unknown field."]))

/-! ### The declared schemas -/

/-- `AuthorSchema` (a `StrictSchema`): required `name` (length 1..50),
optional `email` (valid email, length 1..50), `maintainer` (bool) and
`url` (valid URL, length 1..255). -/
def authorLoad (doc : List (String × JVal)) : LoadOutcome :=
  let o := collectOuts
    [("name", scalarField true (strDeser [lengthValidator 1 50]) (alistLookup doc "name")),
     ("email", scalarField false (emailFieldDeser [lengthValidator 1 50]) (alistLookup doc "email")),
     ("maintainer", scalarField false boolDeser (alistLookup doc "maintainer")),
     ("url", scalarField false (urlFieldDeser [lengthValidator 1 255]) (alistLookup doc "url"))]
  ⟨o.validData, o.messages ++ unknownMsgs ["name", "email", "maintainer", "url"] doc⟩

/-- `RepositorySchema` (a `StrictSchema`): required `type` in
`[git, hg, svn]`, required `url` (length 1..255), optional `branch`
(length 1..50). -/
def repositoryLoad (doc : List (String × JVal)) : LoadOutcome :=
  let o := collectOuts
    [("type", scalarField true
        (strDeser [oneOfValidator ["git", "hg", "svn"]
          "Invalid repository type, please use one of [git, hg, svn]"])
        (alistLookup doc "type")),
     ("url", scalarField true (strDeser [lengthValidator 1 255]) (alistLookup doc "url")),
     ("branch", scalarField false (strDeser [lengthValidator 1 50]) (alistLookup doc "branch"))]
  ⟨o.validData, o.messages ++ unknownMsgs ["type", "url", "branch"] doc⟩

/-- `ExportSchema` (a plain `Schema`): optional `include` and `exclude`,
each a `StrictListField(fields.Str)`. -/
def exportLoad (doc : List (String × JVal)) : LoadOutcome :=
  let o := collectOuts
    [("include", listField false (strDeser []) (alistLookup doc "include")),
     ("exclude", listField false (strDeser []) (alistLookup doc "exclude"))]
  ⟨o.validData, o.messages ++ unknownMsgs ["include", "exclude"] doc⟩

/-- `ExampleSchema` (a `StrictSchema`): required `name` (length 1..100,
charset `[a-zA-Z0-9-_/]`), required `base`, required `files`
(a `StrictListField(fields.Str)`). -/
def exampleLoad (doc : List (String × JVal)) : LoadOutcome :=
  let o := collectOuts
    [("name", scalarField true
        (strDeser [lengthValidator 1 100,
          regexpValidator exampleNamePat "Only [a-zA-Z0-9-_/] chars are allowed"])
        (alistLookup doc "name")),
     ("base", scalarField true (strDeser []) (alistLookup doc "base")),
     ("files", listField true (strDeser []) (alistLookup doc "files"))]
  ⟨o.validData, o.messages ++ unknownMsgs ["name", "base", "files"] doc⟩

/-! ### ManifestSchema field table (declaration order of the source) -/

/-- The declared field names of `ManifestSchema`, in declaration order. -/
def manifestFieldNames : List String :=
  ["name", "version", "authors", "description", "homepage", "license",
   "repository", "export", "examples", "keywords", "platforms", "frameworks",
   "title", "system"]

/-- Item field of `keywords`. -/
def keywordItemDeser : JVal → Except (List String) JVal :=
  strDeser [lengthValidator 1 50,
    regexpValidator keywordPat "Only [a-z0-9-+. ] chars are allowed"]

/-- Item field of `platforms` and `frameworks`. -/
def platformItemDeser : JVal → Except (List String) JVal :=
  strDeser [lengthValidator 1 50,
    regexpValidator platformPat "Only [a-z0-9-_*] chars are allowed"]

/-- Item field of `system`. -/
def systemItemDeser : JVal → Except (List String) JVal :=
  strDeser [lengthValidator 1 50,
    regexpValidator systemPat "Only [a-z0-9-_] chars are allowed"]

/-- The per-field outcomes of one `ManifestSchema` deserialization pass over
a document, one entry per declared field, in declaration order.  Unknown
top-level keys are excluded without error (`Meta.unknown = EXCLUDE`). -/
def manifestOuts (doc : List (String × JVal)) : List (String × FieldOut) :=
  [("name", scalarField true (strDeser [lengthValidator 1 100]) (alistLookup doc "name")),
   ("version", scalarField true (strDeser [lengthValidator 1 50]) (alistLookup doc "version")),
   ("authors", nestedManyField authorLoad (alistLookup doc "authors")),
   ("description", scalarField false (strDeser [lengthValidator 1 1000]) (alistLookup doc "description")),
   ("homepage", scalarField false (urlFieldDeser [lengthValidator 1 255]) (alistLookup doc "homepage")),
   ("license", scalarField false (strDeser [lengthValidator 1 255]) (alistLookup doc "license")),
   ("repository", nestedField true repositoryLoad (alistLookup doc "repository")),
   ("export", nestedField false exportLoad (alistLookup doc "export")),
   ("examples", nestedManyField exampleLoad (alistLookup doc "examples")),
   ("keywords", listField false keywordItemDeser (alistLookup doc "keywords")),
   ("platforms", listField false platformItemDeser (alistLookup doc "platforms")),
   ("frameworks", listField false platformItemDeser (alistLookup doc "frameworks")),
   ("title", scalarField false (strDeser [lengthValidator 1 100]) (alistLookup doc "title")),
   ("system", listField false systemItemDeser (alistLookup doc "system"))]

/-- The field-deserialization pass of `ManifestSchema.load`, before the
`@validates` hooks run. -/
def manifestBaseLoad (doc : List (String × JVal)) : LoadOutcome :=
  collectOuts (manifestOuts doc)

/-! ### Model of `semantic_version.Version.coerce` -/

/-- Longest digit prefix of a character list. -/
def takeDigits : List Char → List Char × List Char
  | [] => ([], [])
  | c :: rest =>
      if c.isDigit then
        let p := takeDigits rest
        (c :: p.1, p.2)
      else ([], c :: rest)

/-- The match of `^\d+(?:\.\d+(?:\.\d+)?)?` at the start of the string:
the numeric components and the unmatched remainder; `none` when the string
does not start with a digit (`Version string lacks a numerical component`). -/
def baseComponents (cs : List Char) : Option (List (List Char) × List Char) :=
  let p1 := takeDigits cs
  if p1.1.isEmpty then none
  else
    match p1.2 with
    | '.' :: r2 =>
        let p2 := takeDigits r2
        if p2.1.isEmpty then some ([p1.1], p1.2)
        else
          match p2.2 with
          | '.' :: r3 =>
              let p3 := takeDigits r3
              if p3.1.isEmpty then some ([p1.1, p2.1], p2.2)
              else some ([p1.1, p2.1, p3.1], p3.2)
          | r => some ([p1.1, p2.1], r)
    | r => some ([p1.1], r)

/-- A numeric component with a forbidden leading zero. -/
def hasLeadingZero : List Char → Bool
  | '0' :: _ :: _ => true
  | _ => false

/-- The `re.sub(r'[^a-zA-Z0-9+.-]', '-', rest)` sanitization of `coerce`. -/
def sanitizeChar (c : Char) : Char :=
  if c.isAlphanum || c == '+' || c == '.' || c == '-' then c else '-'

/-- Splits at the first `+` (Python `split('+', 1)`); with no `+` present the
second component is empty, which coincides with an empty build part. -/
def splitAtFirstPlus : List Char → List Char × List Char
  | [] => ([], [])
  | c :: rest =>
      if c == '+' then ([], rest)
      else
        let p := splitAtFirstPlus rest
        (c :: p.1, p.2)

/-- One dot-separated identifier is acceptable to
`Version._validate_identifiers`: nonempty, and (for prerelease identifiers)
a purely numeric identifier has no leading zero. -/
def identOk (allowLeadingZeroes : Bool) (ident : List Char) : Bool :=
  !ident.isEmpty &&
    (allowLeadingZeroes || !(ident.all Char.isDigit && hasLeadingZero ident))

/-- Decides whether `semantic_version.Version.coerce(s)` succeeds: the string
must start with up to three dot-separated numeric components (without leading
zeros); the remainder is sanitized and split into prerelease and build parts,
whose dot-separated identifiers must be nonempty (prerelease numeric
identifiers additionally without leading zeros). -/
def coerceOk (s : String) : Bool :=
  match baseComponents s.toList with
  | none => false
  | some (comps, rest) =>
      if comps.any hasLeadingZero then false
      else if rest.isEmpty then true
      else
        let rest' := rest.map sanitizeChar
        let pb : List Char × List Char :=
          match rest' with
          | '+' :: r => ([], r)
          | '.' :: r => ([], r)
          | '-' :: r => splitAtFirstPlus r
          | _ => splitAtFirstPlus rest'
        let pre := pb.1
        let build := pb.2.map (fun c => if c == '+' then '.' else c)
        (pre.isEmpty || (splitOnChar '.' pre).all (identOk false)) &&
        (build.isEmpty || (splitOnChar '.' build).all (identOk true))

/-! ### The `@validates` hooks -/

/-- The error reason of `validate_version`. -/
def semverErrMsg : String := "Invalid semantic versioning format, see https://semver.org/"

/-- `ManifestSchema.validate_version` on the deserialized string: the value
must contain a `.` and `Version.coerce` must succeed, else a violation. -/
def validateVersionStr (s : String) : Option String :=
  if s.toList.contains '.' && coerceOk s then none else some semverErrMsg

/-- `validate_version` as a field hook (the field is `fields.Str`, so the
deserialized value is always a string). -/
def validateVersionHook : JVal → Option String
  | .str s => validateVersionStr s
  | _ => none

/-- The parsed SPDX registry document: its `licenses` array, each entry a
JSON object (only `licenseId` is consumed). -/
structure SpdxDb where
  licenses : List (List (String × JVal))

/-- One comparison `item.get("licenseId") == value` of `validate_license`:
a Python `==` between a string and a missing or non-string value is false. -/
def licenseIdMatches (value : String) (item : List (String × JVal)) : Bool :=
  match alistLookup item "licenseId" with
  | some (.str s) => s == value
  | _ => false

/-- The linear scan of `validate_license` over the registry entries. -/
def findLicense (value : String) : List (List (String × JVal)) → Bool
  | [] => false
  | item :: rest => licenseIdMatches value item || findLicense value rest

/-- The error reason of `validate_license` when the registry fetch raised a
`requests.exceptions.RequestException`. -/
def spdxUnavailableMsg : String := "Could not load SPDX licenses for validation"

/-- The error reason of `validate_license` for an identifier that is not in
the registry. -/
def spdxInvalidMsg : String :=
  "Invalid SPDX license identifier. See valid identifiers at https://spdx.org/licenses/"

/-- `ManifestSchema.validate_license` on the deserialized string, given the
outcome of `load_spdx_licenses` (a network failure surfaces as `.error`). -/
def validateLicenseStr (fetch : Except Unit SpdxDb) (value : String) : Option String :=
  match fetch with
  | .error _ => some spdxUnavailableMsg
  | .ok db => if findLicense value db.licenses then none else some spdxInvalidMsg

/-- `validate_license` as a field hook. -/
def validateLicenseHook (fetch : Except Unit SpdxDb) : JVal → Option String
  | .str s => validateLicenseStr fetch s
  | _ => none

/-- Applies one `@validates` field hook as marshmallow's
`_invoke_field_validators` does: only when the field survived
deserialization; on failure the reason is recorded under the field name and
the field is removed from the valid data. -/
def applyFieldHook (k : String) (hook : JVal → Option String) (o : LoadOutcome) : LoadOutcome :=
  match alistLookup o.validData k with
  | none => o
  | some v =>
      match hook v with
      | none => o
      | some msg => ⟨removeKey k o.validData, o.messages ++ [(k, .strs [msg])]⟩

/-- A full `ManifestSchema` deserialization-and-validation pass: the field
pass followed by the `validate_version` and `validate_license` hooks, in
registration order. -/
def manifestLoad (spdx : Except Unit SpdxDb) (doc : List (String × JVal)) : LoadOutcome :=
  applyFieldHook "license" (validateLicenseHook spdx)
    (applyFieldHook "version" validateVersionHook (manifestBaseLoad doc))

/-! ### `load_manifest` and the strict error hook -/

/-- Outcome of `ManifestSchema.load_manifest` (marshmallow-3 branch):
`(data, None)` on success, `(valid_data, messages)` when the internally
raised `ValidationError` is caught, and an escaping `ManifestValidationError`
(carrying the violations and the input document) when
`ManifestSchema.handle_error` raises in strict mode. -/
inductive LoadManifestResult where
  | ok (data : List (String × JVal))
  | partialData (validData : List (String × JVal)) (messages : List (String × Msgs))
  | raisedManifestError (messages : List (String × Msgs)) (inputData : List (String × JVal))

/-- `ManifestSchema.load_manifest` for a schema constructed with the given
`strict` flag: when the pass produced violations, `handle_error` raises
`ManifestValidationError(error, data)` in strict mode (escaping the
`except ValidationError` handler); otherwise the `ValidationError` raised by
marshmallow is caught and turned into `(valid_data, messages)`. -/
def loadManifest (strict : Bool) (spdx : Except Unit SpdxDb)
    (doc : List (String × JVal)) : LoadManifestResult :=
  let o := manifestLoad spdx doc
  if o.messages.isEmpty then .ok o.validData
  else if strict then .raisedManifestError o.messages doc
  else .partialData o.validData o.messages

/-! ### Model of the memoized registry fetch -/

/-- Modelled from the spec: the cache state of `platformio.util.memoized`
(not under `src/`) for one dataset key — an optional `(value, fetched_at)`
pair. -/
structure SpdxCache where
  entry : Option (SpdxDb × Nat)

/-- The TTL of `@memoized(expire="1h")` on `load_spdx_licenses`, in seconds. -/
def spdxTTL : Nat := 3600

/-- Modelled from the spec: one call through `platformio.util.memoized`
(not under `src/`) at time `now` — a lookup never triggers a fetch while
`now - fetch_timestamp < TTL`, otherwise it refetches before answering.
Returns the answer, the new cache state and whether a fetch was issued. -/
def cacheCall (ttl now : Nat) (compute : Unit → SpdxDb) (c : SpdxCache) :
    SpdxDb × SpdxCache × Bool :=
  match c.entry with
  | some (v, ts) =>
      if now - ts < ttl then (v, c, false)
      else (compute (), ⟨some (compute (), now)⟩, true)
  | none => (compute (), ⟨some (compute (), now)⟩, true)

/-- `ManifestSchema.load_spdx_licenses`, modelled as a cached call with the
network fetch abstracted into `compute`. -/
def loadSpdxLicenses (now : Nat) (compute : Unit → SpdxDb) (c : SpdxCache) :
    SpdxDb × SpdxCache × Bool :=
  cacheCall spdxTTL now compute c

/-! ### Lookup lemmas -/

theorem alistLookup_append_of_none {α : Type} {l1 : List (String × α)} {k : String}
    (l2 : List (String × α)) (h : alistLookup l1 k = none) :
    alistLookup (l1 ++ l2) k = alistLookup l2 k := by
  induction l1 with
  | nil => simp
  | cons p rest ih =>
      obtain ⟨k', v⟩ := p
      by_cases hk : k' = k
      · simp [alistLookup, hk] at h
      · simp only [alistLookup, if_neg hk] at h
        simpa [alistLookup, hk] using ih h

theorem alistLookup_append_of_some {α : Type} {l1 : List (String × α)} {k : String} {v : α}
    (l2 : List (String × α)) (h : alistLookup l1 k = some v) :
    alistLookup (l1 ++ l2) k = some v := by
  induction l1 with
  | nil => simp [alistLookup] at h
  | cons p rest ih =>
      obtain ⟨k', w⟩ := p
      by_cases hk : k' = k
      · simp only [alistLookup, if_pos hk] at h
        simp [alistLookup, hk, h]
      · simp only [alistLookup, if_neg hk] at h
        simpa [alistLookup, hk] using ih h

theorem alistLookup_removeKey_ne {α : Type} {k k0 : String} (l : List (String × α))
    (h : k ≠ k0) : alistLookup (removeKey k0 l) k = alistLookup l k := by
  induction l with
  | nil => rfl
  | cons p rest ih =>
      obtain ⟨k', v⟩ := p
      by_cases hk : k' = k0
      · have hne : k' ≠ k := by
          intro hc
          exact h (hc ▸ hk)
        have hdrop : removeKey k0 ((k', v) :: rest) = removeKey k0 rest := by
          simp [removeKey, hk]
        rw [hdrop, ih]
        simp [alistLookup, hne]
      · have hkeep : removeKey k0 ((k', v) :: rest) = (k', v) :: removeKey k0 rest := by
          simp [removeKey, hk]
        rw [hkeep]
        by_cases hkk : k' = k
        · simp [alistLookup, hkk]
        · simp only [alistLookup, if_neg hkk]
          exact ih

theorem alistLookup_mem_ne_nil {α : Type} {l : List (String × α)} {k : String} {v : α}
    (h : alistLookup l k = some v) : l ≠ [] := by
  intro hl
  rw [hl] at h
  simp [alistLookup] at h

/-! ### Lemmas about assembling the per-field outcomes -/

theorem collect_validData_not_mem (outs : List (String × FieldOut)) (k : String)
    (h : k ∉ outs.map Prod.fst) : alistLookup (collectOuts outs).validData k = none := by
  induction outs with
  | nil => rfl
  | cons p rest ih =>
      obtain ⟨k0, fo⟩ := p
      simp only [List.map, List.mem_cons, not_or] at h
      have hk : k0 ≠ k := fun hc => h.1 hc.symm
      cases hfo : fo.1 with
      | none =>
          show alistLookup (entryList k0 fo.1 ++ _) k = none
          rw [hfo]
          simpa [entryList] using ih h.2
      | some v =>
          show alistLookup (entryList k0 fo.1 ++ _) k = none
          rw [hfo]
          simp only [entryList, List.singleton_append, alistLookup, if_neg hk]
          exact ih h.2

theorem collect_messages_not_mem (outs : List (String × FieldOut)) (k : String)
    (h : k ∉ outs.map Prod.fst) : alistLookup (collectOuts outs).messages k = none := by
  induction outs with
  | nil => rfl
  | cons p rest ih =>
      obtain ⟨k0, fo⟩ := p
      simp only [List.map, List.mem_cons, not_or] at h
      have hk : k0 ≠ k := fun hc => h.1 hc.symm
      cases hfo : fo.2 with
      | none =>
          show alistLookup (entryList k0 fo.2 ++ _) k = none
          rw [hfo]
          simpa [entryList] using ih h.2
      | some m =>
          show alistLookup (entryList k0 fo.2 ++ _) k = none
          rw [hfo]
          simp only [entryList, List.singleton_append, alistLookup, if_neg hk]
          exact ih h.2

theorem collect_validData_of_mem (outs : List (String × FieldOut)) (k : String)
    (fo : FieldOut) (hmem : (k, fo) ∈ outs) (hnd : (outs.map Prod.fst).Nodup) :
    alistLookup (collectOuts outs).validData k = fo.1 := by
  induction outs with
  | nil => simp at hmem
  | cons p rest ih =>
      obtain ⟨k0, fo0⟩ := p
      simp only [List.map, List.nodup_cons] at hnd
      rcases List.mem_cons.mp hmem with heq | htail
      · rw [Prod.mk.injEq] at heq
        obtain ⟨hk, hfo⟩ := heq
        subst hk
        subst hfo
        cases hfo1 : fo.1 with
        | none =>
            show alistLookup (entryList k fo.1 ++ (collectOuts rest).validData) k = none
            rw [hfo1]
            simpa [entryList] using collect_validData_not_mem rest k hnd.1
        | some v =>
            show alistLookup (entryList k fo.1 ++ (collectOuts rest).validData) k = some v
            rw [hfo1]
            simp [entryList, alistLookup]
      · have hkmem : k ∈ rest.map Prod.fst := List.mem_map_of_mem Prod.fst htail
        have hk0 : k0 ≠ k := fun hc => hnd.1 (hc ▸ hkmem)
        cases hfo0 : fo0.1 with
        | none =>
            show alistLookup (entryList k0 fo0.1 ++ (collectOuts rest).validData) k = fo.1
            rw [hfo0]
            simpa [entryList] using ih htail hnd.2
        | some v =>
            show alistLookup (entryList k0 fo0.1 ++ (collectOuts rest).validData) k = fo.1
            rw [hfo0]
            simp only [entryList, List.singleton_append, alistLookup, if_neg hk0]
            exact ih htail hnd.2

theorem collect_messages_of_mem (outs : List (String × FieldOut)) (k : String)
    (fo : FieldOut) (hmem : (k, fo) ∈ outs) (hnd : (outs.map Prod.fst).Nodup) :
    alistLookup (collectOuts outs).messages k = fo.2 := by
  induction outs with
  | nil => simp at hmem
  | cons p rest ih =>
      obtain ⟨k0, fo0⟩ := p
      simp only [List.map, List.nodup_cons] at hnd
      rcases List.mem_cons.mp hmem with heq | htail
      · rw [Prod.mk.injEq] at heq
        obtain ⟨hk, hfo⟩ := heq
        subst hk
        subst hfo
        cases hfo2 : fo.2 with
        | none =>
            show alistLookup (entryList k fo.2 ++ (collectOuts rest).messages) k = none
            rw [hfo2]
            simpa [entryList] using collect_messages_not_mem rest k hnd.1
        | some m =>
            show alistLookup (entryList k fo.2 ++ (collectOuts rest).messages) k = some m
            rw [hfo2]
            simp [entryList, alistLookup]
      · have hkmem : k ∈ rest.map Prod.fst := List.mem_map_of_mem Prod.fst htail
        have hk0 : k0 ≠ k := fun hc => hnd.1 (hc ▸ hkmem)
        cases hfo0 : fo0.2 with
        | none =>
            show alistLookup (entryList k0 fo0.2 ++ (collectOuts rest).messages) k = fo.2
            rw [hfo0]
            simpa [entryList] using ih htail hnd.2
        | some m =>
            show alistLookup (entryList k0 fo0.2 ++ (collectOuts rest).messages) k = fo.2
            rw [hfo0]
            simp only [entryList, List.singleton_append, alistLookup, if_neg hk0]
            exact ih htail hnd.2

/-! ### Lemmas about the field-hook pass -/

theorem applyFieldHook_validData_ne (hk : String) (hook : JVal → Option String)
    (o : LoadOutcome) {k : String} (h : k ≠ hk) :
    alistLookup (applyFieldHook hk hook o).validData k = alistLookup o.validData k := by
  cases hv : alistLookup o.validData hk with
  | none => simp [applyFieldHook, hv]
  | some v =>
      cases hh : hook v with
      | none => simp [applyFieldHook, hv, hh]
      | some msg =>
          simp only [applyFieldHook, hv, hh]
          exact alistLookup_removeKey_ne o.validData h

theorem applyFieldHook_messages_ne (hk : String) (hook : JVal → Option String)
    (o : LoadOutcome) {k : String} (h : k ≠ hk) :
    alistLookup (applyFieldHook hk hook o).messages k = alistLookup o.messages k := by
  cases hv : alistLookup o.validData hk with
  | none => simp [applyFieldHook, hv]
  | some v =>
      cases hh : hook v with
      | none => simp [applyFieldHook, hv, hh]
      | some msg =>
          simp only [applyFieldHook, hv, hh]
          cases hm : alistLookup o.messages k with
          | none =>
              rw [alistLookup_append_of_none _ hm]
              have hne : hk ≠ k := fun hc => h hc.symm
              simp [alistLookup, hne]
          | some m => exact alistLookup_append_of_some _ hm

theorem applyFieldHook_of_vd_none {hk : String} {o : LoadOutcome}
    (hook : JVal → Option String) (h : alistLookup o.validData hk = none) :
    applyFieldHook hk hook o = o := by
  simp [applyFieldHook, h]

theorem applyFieldHook_hit {hk : String} {o : LoadOutcome} {v : JVal} {msg : String}
    (hook : JVal → Option String) (hv : alistLookup o.validData hk = some v)
    (hh : hook v = some msg) :
    applyFieldHook hk hook o = ⟨removeKey hk o.validData, o.messages ++ [(hk, .strs [msg])]⟩ := by
  simp [applyFieldHook, hv, hh]

/-! ### Structural lemmas for best-effort list pruning -/

theorem listItemsAux_length (inner : JVal → Except (List String) JVal)
    (idx : Nat) (items : List JVal) :
    (listItemsAux inner idx items).1.length + (listItemsAux inner idx items).2.length
      = items.length := by
  induction items generalizing idx with
  | nil => simp [listItemsAux]
  | cons v rest ih =>
      have hrec := ih (idx + 1)
      simp only [listItemsAux]
      cases hv : inner v with
      | ok w =>
          show (w :: (listItemsAux inner (idx + 1) rest).1).length +
              (listItemsAux inner (idx + 1) rest).2.length = (v :: rest).length
          simp only [List.length_cons]
          omega
      | error es =>
          show (listItemsAux inner (idx + 1) rest).1.length +
              ((idx, Msgs.strs es) :: (listItemsAux inner (idx + 1) rest).2).length
              = (v :: rest).length
          simp only [List.length_cons]
          omega

theorem manifestOuts_keys (doc : List (String × JVal)) :
    (manifestOuts doc).map Prod.fst = manifestFieldNames := rfl

theorem manifestFieldNames_nodup : manifestFieldNames.Nodup := by decide

theorem base_vd_lookup (doc : List (String × JVal)) (k : String) (fo : FieldOut)
    (hmem : (k, fo) ∈ manifestOuts doc) :
    alistLookup (manifestBaseLoad doc).validData k = fo.1 := by
  have hnd : ((manifestOuts doc).map Prod.fst).Nodup := by
    rw [manifestOuts_keys]
    exact manifestFieldNames_nodup
  exact collect_validData_of_mem _ _ _ hmem hnd

theorem base_msgs_lookup (doc : List (String × JVal)) (k : String) (fo : FieldOut)
    (hmem : (k, fo) ∈ manifestOuts doc) :
    alistLookup (manifestBaseLoad doc).messages k = fo.2 := by
  have hnd : ((manifestOuts doc).map Prod.fst).Nodup := by
    rw [manifestOuts_keys]
    exact manifestFieldNames_nodup
  exact collect_messages_of_mem _ _ _ hmem hnd

theorem manifestLoad_vd_ne (spdx : Except Unit SpdxDb) (doc : List (String × JVal))
    {k : String} (h1 : k ≠ "version") (h2 : k ≠ "license") :
    alistLookup (manifestLoad spdx doc).validData k
      = alistLookup (manifestBaseLoad doc).validData k := by
  unfold manifestLoad
  rw [applyFieldHook_validData_ne _ _ _ h2, applyFieldHook_validData_ne _ _ _ h1]

theorem manifestLoad_msgs_ne (spdx : Except Unit SpdxDb) (doc : List (String × JVal))
    {k : String} (h1 : k ≠ "version") (h2 : k ≠ "license") :
    alistLookup (manifestLoad spdx doc).messages k
      = alistLookup (manifestBaseLoad doc).messages k := by
  unfold manifestLoad
  rw [applyFieldHook_messages_ne _ _ _ h2, applyFieldHook_messages_ne _ _ _ h1]

theorem base_vd_name (doc : List (String × JVal)) :
    alistLookup (manifestBaseLoad doc).validData "name"
      = (scalarField true (strDeser [lengthValidator 1 100]) (alistLookup doc "name")).1 :=
  base_vd_lookup doc "name" _ (by simp [manifestOuts])

theorem base_msgs_name (doc : List (String × JVal)) :
    alistLookup (manifestBaseLoad doc).messages "name"
      = (scalarField true (strDeser [lengthValidator 1 100]) (alistLookup doc "name")).2 :=
  base_msgs_lookup doc "name" _ (by simp [manifestOuts])

theorem base_vd_version (doc : List (String × JVal)) :
    alistLookup (manifestBaseLoad doc).validData "version"
      = (scalarField true (strDeser [lengthValidator 1 50]) (alistLookup doc "version")).1 :=
  base_vd_lookup doc "version" _ (by simp [manifestOuts])

theorem base_msgs_version (doc : List (String × JVal)) :
    alistLookup (manifestBaseLoad doc).messages "version"
      = (scalarField true (strDeser [lengthValidator 1 50]) (alistLookup doc "version")).2 :=
  base_msgs_lookup doc "version" _ (by simp [manifestOuts])

theorem base_vd_license (doc : List (String × JVal)) :
    alistLookup (manifestBaseLoad doc).validData "license"
      = (scalarField false (strDeser [lengthValidator 1 255]) (alistLookup doc "license")).1 :=
  base_vd_lookup doc "license" _ (by simp [manifestOuts])

theorem base_msgs_license (doc : List (String × JVal)) :
    alistLookup (manifestBaseLoad doc).messages "license"
      = (scalarField false (strDeser [lengthValidator 1 255]) (alistLookup doc "license")).2 :=
  base_msgs_lookup doc "license" _ (by simp [manifestOuts])

theorem licenseIdMatches_iff (value : String) (item : List (String × JVal)) :
    licenseIdMatches value item = true ↔
      alistLookup item "licenseId" = some (.str value) := by
  unfold licenseIdMatches
  cases hl : alistLookup item "licenseId" with
  | none => simp
  | some v =>
      cases v with
      | str sv =>
          show (sv == value) = true ↔ some (JVal.str sv) = some (JVal.str value)
          rw [beq_iff_eq]
          constructor
          · intro h
            rw [h]
          · intro h
            exact JVal.str.inj (Option.some.inj h)
      | boolean b => simp
      | num n => simp
      | list l => simp
      | obj kvs => simp

/-- C5: `validate_version` accepts exactly the strings that contain at least
one `.` and succeed under the `Version.coerce` coercion model; `"1.2"` is
accepted, while `"abc"` and `"1"` are rejected with the constraint-violation
reason. -/
theorem claim5_version_validator (s : String) :
    (validateVersionStr s = none ↔
      (s.toList.contains '.' = true ∧ coerceOk s = true)) ∧
    validateVersionStr "1.2" = none ∧
    validateVersionStr "abc" = some semverErrMsg ∧
    validateVersionStr "1" = some semverErrMsg := by
  refine ⟨?_, by decide, by decide, by decide⟩
  constructor
  · intro h
    by_cases hc : (s.toList.contains '.' && coerceOk s) = true
    · have hc' := hc
      simp only [Bool.and_eq_true] at hc'
      exact hc'
    · unfold validateVersionStr at h
      rw [if_neg hc] at h
      exact absurd h (by simp)
  · intro hb
    unfold validateVersionStr
    rw [hb.1, hb.2]
    rfl

/-- Witness for C5 at the concrete accepted input. -/
theorem claim5_version_validator_witness : validateVersionStr "1.2" = none :=
  (claim5_version_validator "1.2").2.1

/-! ### Claim C8 -/

theorem findLicense_iff (value : String) (ls : List (List (String × JVal))) :
    findLicense value ls = true ↔
      ∃ item ∈ ls, alistLookup item "licenseId" = some (.str value) := by
  induction ls with
  | nil => simp [findLicense]
  | cons item rest ih =>
      simp only [findLicense, Bool.or_eq_true, List.mem_cons, ih, licenseIdMatches_iff]
      constructor
      · rintro (hm | ⟨it, hmem, hid⟩)
        · exact ⟨item, Or.inl rfl, hm⟩
        · exact ⟨it, Or.inr hmem, hid⟩
      · rintro ⟨it, (rfl | hmem), hid⟩
        · exact Or.inl hid
        · exact Or.inr ⟨it, hmem, hid⟩

/-- C8: with a reachable registry, `validate_license` succeeds exactly when
the value equals the `licenseId` of some entry of the registry's `licenses`
array (string equality, hence case-sensitive); any other value yields the
invalid-identifier violation, as the concrete `MIT` / `mit` pair shows. -/
theorem claim8_license_exact_case_sensitive_match (db : SpdxDb) (v : String) :
    (validateLicenseStr (.ok db) v = none ↔
      ∃ item ∈ db.licenses, alistLookup item "licenseId" = some (.str v)) ∧
    (validateLicenseStr (.ok db) v = none ∨
      validateLicenseStr (.ok db) v = some spdxInvalidMsg) ∧
    validateLicenseStr (.ok ⟨[[("licenseId", .str "MIT")]]⟩) "MIT" = none ∧
    validateLicenseStr (.ok ⟨[[("licenseId", .str "MIT")]]⟩) "mit" = some spdxInvalidMsg := by
  refine ⟨?_, ?_, by decide, by decide⟩
  · rw [← findLicense_iff v db.licenses]
    unfold validateLicenseStr
    by_cases hf : findLicense v db.licenses = true
    · simp [hf]
    · simp [hf]
  · unfold validateLicenseStr
    by_cases hf : findLicense v db.licenses = true
    · simp [hf]
    · simp [hf]

/-! ### Claim C3 -/

/-- C3: under best-effort mode, the nested author entry that fails validation
(missing required `name`, invalid `email`) is dropped from `authors` as a
whole, the surviving entry is kept unchanged, and the violations map records
the nested failure at `authors[1]` with both nested reasons. -/
theorem claim3_invalid_author_dropped_whole :
    loadManifest false (.ok ⟨[]⟩)
      [("name", .str "pkg"), ("version", .str "1.0.0"),
       ("authors", .list [.obj [("name", .str "A")], .obj [("email", .str "bad")]])] =
    .partialData
      [("name", .str "pkg"), ("version", .str "1.0.0"),
       ("authors", .list [.obj [("name", .str "A")]])]
      [("authors", .byIndex
        [(1, .byField [("name", .strs ["Missing data for required field."]),
                       ("email", .strs ["Not a valid email address."])])])] := rfl

/-! ### Claim C6 -/

/-- C6: the modelled memoized registry cache never fetches while
`now - fetch_timestamp < TTL`: a cache hit returns the stored snapshot with
no fetch, a fresh fetch at `t0` followed by a second lookup within the TTL
window is served from cache without a fetch, and an expired entry is
refetched before answering. -/
theorem claim6_ttl_cache_no_refetch_within_ttl (st : SpdxCache) (db : SpdxDb)
    (ts t0 t1 : Nat) (f g : Unit → SpdxDb) :
    (st.entry = some (db, ts) → t0 - ts < spdxTTL →
      cacheCall spdxTTL t0 f st = (db, st, false)) ∧
    (st.entry = none →
      cacheCall spdxTTL t0 f st = (f (), ⟨some (f (), t0)⟩, true) ∧
      (t1 - t0 < spdxTTL →
        cacheCall spdxTTL t1 g ⟨some (f (), t0)⟩ = (f (), ⟨some (f (), t0)⟩, false))) ∧
    (st.entry = some (db, ts) → spdxTTL ≤ t0 - ts →
      cacheCall spdxTTL t0 f st = (f (), ⟨some (f (), t0)⟩, true)) := by
  refine ⟨?_, ?_, ?_⟩
  · intro he hlt
    simp [cacheCall, he, hlt]
  · intro he
    refine ⟨by simp [cacheCall, he], ?_⟩
    intro hlt
    simp [cacheCall, hlt]
  · intro he hge
    simp [cacheCall, he, Nat.not_lt.mpr hge]

/-- Witness for C6: a miss at time 0 fetches and stores; a second lookup at
time 10 (inside the one-hour TTL) answers from cache without fetching. -/
theorem claim6_ttl_cache_no_refetch_within_ttl_witness :
    cacheCall spdxTTL 0 (fun _ => SpdxDb.mk []) ⟨none⟩
      = (SpdxDb.mk [], ⟨some (SpdxDb.mk [], 0)⟩, true) ∧
    cacheCall spdxTTL 10 (fun _ => SpdxDb.mk [[("licenseId", JVal.str "MIT")]])
      ⟨some (SpdxDb.mk [], 0)⟩
      = (SpdxDb.mk [], ⟨some (SpdxDb.mk [], 0)⟩, false) := by
  have h := (claim6_ttl_cache_no_refetch_within_ttl ⟨none⟩ (SpdxDb.mk []) 0 0 10
    (fun _ => SpdxDb.mk [])
    (fun _ => SpdxDb.mk [[("licenseId", JVal.str "MIT")]])).2.1 rfl
  exact ⟨h.1, h.2 (by decide)⟩

/-! ### Helpers for the `load_manifest` dispatch -/

theorem loadManifest_messages_ne (spdx : Except Unit SpdxDb) (doc : List (String × JVal))
    (h : (manifestLoad spdx doc).messages ≠ []) :
    loadManifest true spdx doc
      = .raisedManifestError (manifestLoad spdx doc).messages doc ∧
    loadManifest false spdx doc
      = .partialData (manifestLoad spdx doc).validData (manifestLoad spdx doc).messages := by
  have hb : (manifestLoad spdx doc).messages.isEmpty = false := by
    cases hmm : (manifestLoad spdx doc).messages with
    | nil => exact absurd hmm h
    | cons a t => rfl
  constructor
  · simp [loadManifest, hb]
  · simp [loadManifest, hb]

theorem loadManifest_messages_nil (strict : Bool) (spdx : Except Unit SpdxDb)
    (doc : List (String × JVal)) (h : (manifestLoad spdx doc).messages = []) :
    loadManifest strict spdx doc = .ok (manifestLoad spdx doc).validData := by
  have hb : (manifestLoad spdx doc).messages.isEmpty = true := by
    rw [h]
    rfl
  simp [loadManifest, hb]

theorem loadManifest_false_never_raises (spdx : Except Unit SpdxDb)
    (doc : List (String × JVal)) (m : List (String × Msgs)) (d : List (String × JVal)) :
    loadManifest false spdx doc ≠ .raisedManifestError m d := by
  intro hcontra
  by_cases hm : (manifestLoad spdx doc).messages = []
  · rw [loadManifest_messages_nil false spdx doc hm] at hcontra
    exact LoadManifestResult.noConfusion hcontra
  · rw [(loadManifest_messages_ne spdx doc hm).2] at hcontra
    exact LoadManifestResult.noConfusion hcontra

/-! ### Claim C4 -/

/-- C4: when the registry fetch fails with a network error, validation of a
well-formed `license` value reports the distinct
reference-data-unavailable reason — not the invalid-identifier reason that a
reachable registry produces — and this one reason reaches the caller in both
modes: inside the violations map of the best-effort result and inside the
raised `ManifestValidationError` of the strict result. -/
theorem claim4_fetch_failure_distinct_outcome (doc : List (String × JVal)) (s : String)
    (hdoc : alistLookup doc "license" = some (.str s))
    (hmin : 1 ≤ s.length) (hmax : s.length ≤ 255) :
    alistLookup (manifestLoad (.error ()) doc).messages "license"
      = some (.strs [spdxUnavailableMsg]) ∧
    spdxUnavailableMsg ≠ spdxInvalidMsg ∧
    (∀ db : SpdxDb, validateLicenseStr (.ok db) s ≠ some spdxUnavailableMsg) ∧
    loadManifest true (.error ()) doc
      = .raisedManifestError (manifestLoad (.error ()) doc).messages doc ∧
    loadManifest false (.error ()) doc
      = .partialData (manifestLoad (.error ()) doc).validData
          (manifestLoad (.error ()) doc).messages := by
  have hlen : lengthValidator 1 255 s = none := by
    unfold lengthValidator
    rw [if_pos ⟨hmin, hmax⟩]
  have hrun : runValidators [lengthValidator 1 255] s = [] := by
    simp [runValidators, hlen]
  have hdes : strDeser [lengthValidator 1 255] (JVal.str s) = .ok (.str s) := by
    simp only [strDeser, hrun]
  have hval : alistLookup (manifestBaseLoad doc).validData "license" = some (.str s) := by
    rw [base_vd_license, hdoc]
    simp [scalarField, hdes]
  have hmsg0 : alistLookup (manifestBaseLoad doc).messages "license" = none := by
    rw [base_msgs_license, hdoc]
    simp [scalarField, hdes]
  have h1v : alistLookup
      (applyFieldHook "version" validateVersionHook (manifestBaseLoad doc)).validData "license"
      = some (.str s) := by
    rw [applyFieldHook_validData_ne _ _ _ (by decide)]
    exact hval
  have h1m : alistLookup
      (applyFieldHook "version" validateVersionHook (manifestBaseLoad doc)).messages "license"
      = none := by
    rw [applyFieldHook_messages_ne _ _ _ (by decide)]
    exact hmsg0
  have hhook : validateLicenseHook (.error ()) (JVal.str s) = some spdxUnavailableMsg := rfl
  have hml : manifestLoad (.error ()) doc
      = ⟨removeKey "license"
            (applyFieldHook "version" validateVersionHook (manifestBaseLoad doc)).validData,
          (applyFieldHook "version" validateVersionHook (manifestBaseLoad doc)).messages
            ++ [("license", .strs [spdxUnavailableMsg])]⟩ := by
    unfold manifestLoad
    exact applyFieldHook_hit _ h1v hhook
  have hm : alistLookup (manifestLoad (.error ()) doc).messages "license"
      = some (.strs [spdxUnavailableMsg]) := by
    rw [hml]
    show alistLookup
        ((applyFieldHook "version" validateVersionHook (manifestBaseLoad doc)).messages
          ++ [("license", .strs [spdxUnavailableMsg])]) "license"
      = some (.strs [spdxUnavailableMsg])
    rw [alistLookup_append_of_none _ h1m]
    simp [alistLookup]
  have hne : (manifestLoad (.error ()) doc).messages ≠ [] := alistLookup_mem_ne_nil hm
  refine ⟨hm, by decide, ?_, (loadManifest_messages_ne _ doc hne).1,
    (loadManifest_messages_ne _ doc hne).2⟩
  intro db hcontra
  have hcontra' : (if findLicense s db.licenses = true then (none : Option String)
      else some spdxInvalidMsg) = some spdxUnavailableMsg := hcontra
  by_cases hf : findLicense s db.licenses = true
  · rw [if_pos hf] at hcontra'
    exact Option.noConfusion hcontra'
  · rw [if_neg hf] at hcontra'
    have heqm : spdxInvalidMsg = spdxUnavailableMsg := Option.some.inj hcontra'
    exact absurd heqm (by decide)

/-- Witness for C4: the fetch-failure outcome on a concrete document with a
well-formed license value. -/
theorem claim4_fetch_failure_distinct_outcome_witness :
    alistLookup (manifestLoad (.error ()) [("license", JVal.str "MIT")]).messages "license"
      = some (.strs [spdxUnavailableMsg]) ∧
    loadManifest false (.error ()) [("license", JVal.str "MIT")]
      = .partialData (manifestLoad (.error ()) [("license", JVal.str "MIT")]).validData
          (manifestLoad (.error ()) [("license", JVal.str "MIT")]).messages := by
  have h := claim4_fetch_failure_distinct_outcome [("license", JVal.str "MIT")] "MIT"
    rfl (by decide) (by decide)
  exact ⟨h.1, h.2.2.2.2⟩

/-- Witness for C8 at a concrete registry and value. -/
theorem claim8_license_exact_case_sensitive_match_witness :
    validateLicenseStr (.ok ⟨[[("licenseId", JVal.str "MIT")]]⟩) "MIT" = none :=
  (claim8_license_exact_case_sensitive_match ⟨[]⟩ "x").2.2.1

/-! ### Claim C7 -/

/-- C7: a document missing the required `name` (resp. `version`) field makes
strict mode raise a `ManifestValidationError` whose violations map carries
the missing-required-field entry for that field, while best-effort mode
returns a repaired document that omits the field together with a
violations-map entry for it. -/
theorem claim7_required_name_version (spdx : Except Unit SpdxDb)
    (doc : List (String × JVal)) :
    (alistLookup doc "name" = none →
      alistLookup (manifestLoad spdx doc).validData "name" = none ∧
      alistLookup (manifestLoad spdx doc).messages "name"
        = some (.strs ["Missing data for required field."]) ∧
      loadManifest true spdx doc
        = .raisedManifestError (manifestLoad spdx doc).messages doc ∧
      loadManifest false spdx doc
        = .partialData (manifestLoad spdx doc).validData (manifestLoad spdx doc).messages) ∧
    (alistLookup doc "version" = none →
      alistLookup (manifestLoad spdx doc).validData "version" = none ∧
      alistLookup (manifestLoad spdx doc).messages "version"
        = some (.strs ["Missing data for required field."]) ∧
      loadManifest true spdx doc
        = .raisedManifestError (manifestLoad spdx doc).messages doc ∧
      loadManifest false spdx doc
        = .partialData (manifestLoad spdx doc).validData (manifestLoad spdx doc).messages) := by
  constructor
  · intro hmiss
    have hvd : alistLookup (manifestLoad spdx doc).validData "name" = none := by
      rw [manifestLoad_vd_ne spdx doc (by decide) (by decide), base_vd_name, hmiss]
      rfl
    have hmsg : alistLookup (manifestLoad spdx doc).messages "name"
        = some (.strs ["Missing data for required field."]) := by
      rw [manifestLoad_msgs_ne spdx doc (by decide) (by decide), base_msgs_name, hmiss]
      rfl
    have hne : (manifestLoad spdx doc).messages ≠ [] := alistLookup_mem_ne_nil hmsg
    exact ⟨hvd, hmsg, (loadManifest_messages_ne spdx doc hne).1,
      (loadManifest_messages_ne spdx doc hne).2⟩
  · intro hmiss
    have hbase_v : alistLookup (manifestBaseLoad doc).validData "version" = none := by
      rw [base_vd_version, hmiss]
      rfl
    have ho1 : applyFieldHook "version" validateVersionHook (manifestBaseLoad doc)
        = manifestBaseLoad doc := applyFieldHook_of_vd_none _ hbase_v
    have hml : manifestLoad spdx doc
        = applyFieldHook "license" (validateLicenseHook spdx) (manifestBaseLoad doc) := by
      unfold manifestLoad
      rw [ho1]
    have hvd : alistLookup (manifestLoad spdx doc).validData "version" = none := by
      rw [hml, applyFieldHook_validData_ne _ _ _ (by decide)]
      exact hbase_v
    have hmsg : alistLookup (manifestLoad spdx doc).messages "version"
        = some (.strs ["Missing data for required field."]) := by
      rw [hml, applyFieldHook_messages_ne _ _ _ (by decide), base_msgs_version, hmiss]
      rfl
    have hne : (manifestLoad spdx doc).messages ≠ [] := alistLookup_mem_ne_nil hmsg
    exact ⟨hvd, hmsg, (loadManifest_messages_ne spdx doc hne).1,
      (loadManifest_messages_ne spdx doc hne).2⟩

/-- Witness for C7 on the empty document, which misses both required fields. -/
theorem claim7_required_name_version_witness :
    alistLookup (manifestLoad (.ok ⟨[]⟩) []).validData "name" = none ∧
    alistLookup (manifestLoad (.ok ⟨[]⟩) []).messages "name"
      = some (.strs ["Missing data for required field."]) ∧
    alistLookup (manifestLoad (.ok ⟨[]⟩) []).messages "version"
      = some (.strs ["Missing data for required field."]) ∧
    loadManifest true (.ok ⟨[]⟩) []
      = .raisedManifestError (manifestLoad (.ok ⟨[]⟩) []).messages [] := by
  have h := claim7_required_name_version (.ok ⟨[]⟩) []
  exact ⟨(h.1 rfl).1, (h.1 rfl).2.1, (h.2 rfl).2.1, (h.1 rfl).2.2.1⟩

/-! ### Claim C9 -/

/-- C9: top-level keys not declared in the schema never produce a violation
and are absent from the document either mode returns, while a declared valid
field (`name`) is carried through unchanged. -/
theorem claim9_unknown_keys_excluded (spdx : Except Unit SpdxDb)
    (doc : List (String × JVal)) (k : String) (hk : k ∉ manifestFieldNames) :
    alistLookup (manifestLoad spdx doc).validData k = none ∧
    alistLookup (manifestLoad spdx doc).messages k = none ∧
    (∀ b d, loadManifest b spdx doc = .ok d → alistLookup d k = none) ∧
    (∀ b vd m, loadManifest b spdx doc = .partialData vd m →
      alistLookup vd k = none ∧ alistLookup m k = none) ∧
    (∀ s, alistLookup doc "name" = some (.str s) → 1 ≤ s.length → s.length ≤ 100 →
      alistLookup (manifestLoad spdx doc).validData "name" = some (.str s)) := by
  have h1 : k ≠ "version" := by
    rintro rfl
    exact hk (by decide)
  have h2 : k ≠ "license" := by
    rintro rfl
    exact hk (by decide)
  have hvd : alistLookup (manifestLoad spdx doc).validData k = none := by
    rw [manifestLoad_vd_ne spdx doc h1 h2]
    apply collect_validData_not_mem
    rw [manifestOuts_keys]
    exact hk
  have hmsg : alistLookup (manifestLoad spdx doc).messages k = none := by
    rw [manifestLoad_msgs_ne spdx doc h1 h2]
    apply collect_messages_not_mem
    rw [manifestOuts_keys]
    exact hk
  refine ⟨hvd, hmsg, ?_, ?_, ?_⟩
  · intro b d hres
    by_cases hm : (manifestLoad spdx doc).messages = []
    · rw [loadManifest_messages_nil b spdx doc hm] at hres
      rw [← LoadManifestResult.ok.inj hres]
      exact hvd
    · cases b with
      | true =>
          rw [(loadManifest_messages_ne spdx doc hm).1] at hres
          exact LoadManifestResult.noConfusion hres
      | false =>
          rw [(loadManifest_messages_ne spdx doc hm).2] at hres
          exact LoadManifestResult.noConfusion hres
  · intro b vd m hres
    by_cases hm : (manifestLoad spdx doc).messages = []
    · rw [loadManifest_messages_nil b spdx doc hm] at hres
      exact LoadManifestResult.noConfusion hres
    · cases b with
      | true =>
          rw [(loadManifest_messages_ne spdx doc hm).1] at hres
          exact LoadManifestResult.noConfusion hres
      | false =>
          rw [(loadManifest_messages_ne spdx doc hm).2] at hres
          obtain ⟨hvd', hm'⟩ := LoadManifestResult.partialData.inj hres
          rw [← hvd', ← hm']
          exact ⟨hvd, hmsg⟩
  · intro s hs hmin hmax
    have hlen : lengthValidator 1 100 s = none := by
      unfold lengthValidator
      rw [if_pos ⟨hmin, hmax⟩]
    have hrun : runValidators [lengthValidator 1 100] s = [] := by
      simp [runValidators, hlen]
    have hdes : strDeser [lengthValidator 1 100] (JVal.str s) = .ok (.str s) := by
      simp only [strDeser, hrun]
    rw [manifestLoad_vd_ne spdx doc (by decide) (by decide), base_vd_name, hs]
    simp [scalarField, hdes]

/-- Witness for C9: an undeclared key `extra` is silently dropped while the
valid `name` passes through. -/
theorem claim9_unknown_keys_excluded_witness :
    alistLookup (manifestLoad (.ok ⟨[]⟩)
      [("name", JVal.str "pkg"), ("extra", JVal.str "x")]).validData "extra" = none ∧
    alistLookup (manifestLoad (.ok ⟨[]⟩)
      [("name", JVal.str "pkg"), ("extra", JVal.str "x")]).messages "extra" = none ∧
    alistLookup (manifestLoad (.ok ⟨[]⟩)
      [("name", JVal.str "pkg"), ("extra", JVal.str "x")]).validData "name"
      = some (JVal.str "pkg") := by
  have h := claim9_unknown_keys_excluded (.ok ⟨[]⟩)
    [("name", JVal.str "pkg"), ("extra", JVal.str "x")] "extra" (by decide)
  exact ⟨h.1, h.2.1, h.2.2.2.2 "pkg" rfl (by decide) (by decide)⟩

/-! ### Claim C10 -/

/-- C10: with `strict=False` the load is total — `(data, None)` without
violations, `(valid_data, messages)` with them, never an escaping exception;
with `strict=True` a violating document raises the `ManifestValidationError`
that escapes the `except ValidationError` handler of `load_manifest`. -/
theorem claim10_nonstrict_never_raises (spdx : Except Unit SpdxDb)
    (doc : List (String × JVal)) :
    ((manifestLoad spdx doc).messages = [] →
      loadManifest false spdx doc = .ok (manifestLoad spdx doc).validData ∧
      loadManifest true spdx doc = .ok (manifestLoad spdx doc).validData) ∧
    ((manifestLoad spdx doc).messages ≠ [] →
      loadManifest false spdx doc
        = .partialData (manifestLoad spdx doc).validData (manifestLoad spdx doc).messages ∧
      loadManifest true spdx doc
        = .raisedManifestError (manifestLoad spdx doc).messages doc) ∧
    (∀ m d, loadManifest false spdx doc ≠ .raisedManifestError m d) :=
  ⟨fun h => ⟨loadManifest_messages_nil false spdx doc h,
      loadManifest_messages_nil true spdx doc h⟩,
    fun h => ⟨(loadManifest_messages_ne spdx doc h).2,
      (loadManifest_messages_ne spdx doc h).1⟩,
    loadManifest_false_never_raises spdx doc⟩

/-- Witness for C10: a violating document under best-effort returns the
partial pair and does not raise. -/
theorem claim10_nonstrict_never_raises_witness :
    loadManifest false (.ok ⟨[]⟩) [("version", JVal.str "abc")]
      = .partialData (manifestLoad (.ok ⟨[]⟩) [("version", JVal.str "abc")]).validData
          (manifestLoad (.ok ⟨[]⟩) [("version", JVal.str "abc")]).messages ∧
    (∀ m d, loadManifest false (.ok ⟨[]⟩) [("version", JVal.str "abc")]
      ≠ .raisedManifestError m d) := by
  have h := claim10_nonstrict_never_raises (.ok ⟨[]⟩) [("version", JVal.str "abc")]
  refine ⟨(h.2.1 ?_).1, h.2.2⟩
  intro hc
  exact absurd (congrArg List.isEmpty hc) (by decide)

/-! ### Claim C1 -/

/-- The literal reading of C1: whenever strict-mode validation fails, the
raised structured error identifies exactly one field — the first violation in
declaration order — because later sibling validators were never evaluated. -/
def strictAbortsOnFirstViolation : Prop :=
  ∀ (spdx : Except Unit SpdxDb) (doc : List (String × JVal))
    (msgs : List (String × Msgs)) (data : List (String × JVal)),
    loadManifest true spdx doc = .raisedManifestError msgs data → msgs.length = 1

/-- Counterexample to C1 as stated: for the document `{version: "abc"}` the
strict error carries two entries — the missing `name` (the first violation in
declaration order) and the invalid `version`, whose validator therefore ran
after the first violation had already been found. -/
theorem claim1_counterexample_all_fields_validated : ¬ strictAbortsOnFirstViolation := by
  intro h
  have hc := h (.ok ⟨[]⟩) [("version", JVal.str "abc")]
    [("name", .strs ["Missing data for required field."]), ("version", .strs [semverErrMsg])]
    [("version", JVal.str "abc")] rfl
  simp at hc

/-- C1 amended: in strict mode a document with at least one violation makes
`load_manifest` raise a single structured `ManifestValidationError`, but only
after the full field pass: the raised error carries the complete violations
map — identical to the best-effort map, so validators of sibling fields after
the first failure are still evaluated — each entry identifying the field path
and reasons, and no document, full or partial, is returned. -/
theorem claim1_amended_strict_raises_full_map (spdx : Except Unit SpdxDb)
    (doc : List (String × JVal)) (h : (manifestLoad spdx doc).messages ≠ []) :
    loadManifest true spdx doc
      = .raisedManifestError (manifestLoad spdx doc).messages doc ∧
    loadManifest false spdx doc
      = .partialData (manifestLoad spdx doc).validData (manifestLoad spdx doc).messages ∧
    (∀ d, loadManifest true spdx doc ≠ .ok d) ∧
    (∀ vd m, loadManifest true spdx doc ≠ .partialData vd m) := by
  obtain ⟨h1, h2⟩ := loadManifest_messages_ne spdx doc h
  refine ⟨h1, h2, ?_, ?_⟩
  · intro d hc
    rw [h1] at hc
    exact LoadManifestResult.noConfusion hc
  · intro vd m hc
    rw [h1] at hc
    exact LoadManifestResult.noConfusion hc

/-- Witness for the amended C1 on the `{version: "abc"}` document. -/
theorem claim1_amended_strict_raises_full_map_witness :
    loadManifest true (.ok ⟨[]⟩) [("version", JVal.str "abc")]
      = .raisedManifestError
          [("name", .strs ["Missing data for required field."]),
           ("version", .strs [semverErrMsg])]
          [("version", JVal.str "abc")] := by
  have h := claim1_amended_strict_raises_full_map (.ok ⟨[]⟩) [("version", JVal.str "abc")]
    (fun hc => absurd (congrArg List.isEmpty hc) (by decide))
  exact h.1

end PioManifest
